import Mathlib

/-! Shamir secret recovery (`Interpretation.js`): embedding and verification.

The JavaScript source computes with the language's `Number` type, i.e. IEEE-754
binary64 values.  The embedding keeps that: a `Number` is `NaN`, an infinity, the
negative zero, or a finite rational, and every arithmetic operator returns the
exact rational result rounded to the nearest binary64 value (ties to even), as
ECMA-262 prescribes.  Loops of the source become folds over the index range.
-/

namespace Interpretation

/-! ## JavaScript numbers -/

/-- A JavaScript `Number`: `fin 0` is `+0`, `negZero` is `-0`. -/
inductive Number where
  | nan
  | posInf
  | negInf
  | negZero
  | fin (q : ℚ)
  deriving DecidableEq

namespace Number

/-- Sign bit of a number that is not `NaN`. -/
def isNeg : Number → Bool
  | negInf => true
  | negZero => true
  | fin q => decide (q < 0)
  | _ => false

/-- The two infinities. -/
def isInf : Number → Bool
  | posInf => true
  | negInf => true
  | _ => false

/-- Mathematical value of a finite number (both zeros are `0`). -/
def toRat? : Number → Option ℚ
  | fin q => some q
  | negZero => some 0
  | _ => none

/-- Zero carrying the given sign bit. -/
def zero (neg : Bool) : Number := if neg then negZero else fin 0

/-- Infinity carrying the given sign bit. -/
def inf (neg : Bool) : Number := if neg then negInf else posInf

/-- Unary minus: flips the sign bit. -/
def neg : Number → Number
  | nan => nan
  | posInf => negInf
  | negInf => posInf
  | negZero => fin 0
  | fin q => if q = 0 then negZero else fin (-q)

end Number

open Number

/-- Number of binary digits of a natural number (`0` for `0`); the first argument is fuel. -/
def bitLengthAux : Nat → Nat → Nat
  | 0, _ => 0
  | fuel + 1, n => if n = 0 then 0 else bitLengthAux fuel (n / 2) + 1

/-- Number of binary digits of `n`. -/
def bitLength (n : Nat) : Nat := bitLengthAux n n

/-- For `q > 0`, the integer `e` with `2^e ≤ q < 2^(e+1)`. -/
def floorLog2 (q : ℚ) : Int :=
  let e : Int := (bitLength q.num.natAbs : Int) - (bitLength q.den : Int)
  if (2 : ℚ) ^ e ≤ q then e else e - 1

/-- Nearest integer, ties to the even one. -/
def roundHalfEven (m : ℚ) : Int :=
  let f : Int := ⌊m⌋
  let d : ℚ := m - f
  if d < 1 / 2 then f
  else if 1 / 2 < d then f + 1
  else if f % 2 = 0 then f else f + 1

/-- Exponent of the unit in the last place of the binary64 format around `q > 0`:
53 significant bits, exponents no lower than `-1022` (below that the numbers are subnormal). -/
def ulpExp (q : ℚ) : Int := max (floorLog2 q) (-1022) - 52

/-- Round a positive rational to binary64 (round to nearest, ties to even; overflow to `+∞`). -/
def toDoublePos (q : ℚ) : Number :=
  let p := ulpExp q
  let v : ℚ := (roundHalfEven (q / (2 : ℚ) ^ p) : ℚ) * (2 : ℚ) ^ p
  if (2 : ℚ) ^ (1024 : ℕ) ≤ v then posInf else fin v

/-- The Number value for a mathematical value (ECMA-262 `𝔽`): round to the nearest binary64
value; a negative value that underflows gives `-0`. -/
def toDouble (q : ℚ) : Number :=
  if q = 0 then fin 0
  else if 0 < q then toDoublePos q
  else (toDoublePos (-q)).neg

/-- JavaScript `a * b`. -/
def mul (a b : Number) : Number :=
  match a.toRat?, b.toRat? with
  | some qa, some qb =>
    if qa * qb = 0 then zero (xor a.isNeg b.isNeg) else toDouble (qa * qb)
  | some qa, none =>
    if b = nan then nan else if qa = 0 then nan else inf (xor a.isNeg b.isNeg)
  | none, some qb =>
    if a = nan then nan else if qb = 0 then nan else inf (xor a.isNeg b.isNeg)
  | none, none =>
    if a = nan ∨ b = nan then nan else inf (xor a.isNeg b.isNeg)

/-- JavaScript `a / b`. -/
def div (a b : Number) : Number :=
  match a.toRat?, b.toRat? with
  | some qa, some qb =>
    if qb = 0 then (if qa = 0 then nan else inf (xor a.isNeg b.isNeg))
    else if qa = 0 then zero (xor a.isNeg b.isNeg)
    else toDouble (qa / qb)
  | some _, none =>
    if b = nan then nan else zero (xor a.isNeg b.isNeg)
  | none, some _ =>
    if a = nan then nan else inf (xor a.isNeg b.isNeg)
  | none, none => nan

/-- JavaScript `a + b`. -/
def add (a b : Number) : Number :=
  match a.toRat?, b.toRat? with
  | some qa, some qb =>
    if qa = 0 ∧ qb = 0 then zero (a.isNeg && b.isNeg)
    else if qa + qb = 0 then fin 0
    else toDouble (qa + qb)
  | some _, none => b
  | none, some _ => a
  | none, none => if a = b then a else nan

/-- JavaScript `a - b`. -/
def sub (a b : Number) : Number := add a b.neg

/-- JavaScript `Math.round`: the nearest integer, ties toward `+∞`; keeps `NaN`, the
infinities and the zeros, and gives `-0` on `[-0.5, 0)`. -/
def mathRound : Number → Number
  | fin q =>
    let r : Int := ⌊q + 1 / 2⌋
    if q < 0 ∧ r = 0 then negZero else fin r
  | x => x

/-! ## `findSecretLagrange` -/

/-- A point `[x, y]`. -/
abbrev Point := Number × Number

/-- `Array.prototype.slice(0, end)` for an integer `end`: a negative `end` counts from the
back of the array. -/
def slice0 {α : Type} (xs : List α) (k : Int) : List α :=
  if k < 0 then xs.take (max ((xs.length : Int) + k) 0).toNat else xs.take k.toNat

/-- One turn of the loop of `lagrangeBasis`: `if (i !== j) basis *= (x - xi) / (xj - xi)`.
The loops only read indices below `points.length`, so the default of `getD` is never used. -/
def basisStep (j : Nat) (x xj : Number) (points : List Point) (basis : Number) (i : Nat) :
    Number :=
  if i ≠ j then
    let xi := (points.getD i (nan, nan)).1
    mul basis (div (sub x xi) (sub xj xi))
  else basis

/-- The inner function `lagrangeBasis(j, x, points)`. -/
def lagrangeBasis (j : Nat) (x : Number) (points : List Point) : Number :=
  let xj := (points.getD j (nan, nan)).1
  (List.range points.length).foldl (basisStep j x xj points) (fin 1)

/-- One turn of the summation loop: `result += yj * lagrangeBasis(j, x, points)`. -/
def sumStep (x : Number) (points : List Point) (result : Number) (j : Nat) : Number :=
  let yj := (points.getD j (nan, nan)).2
  add result (mul yj (lagrangeBasis j x points))

/-- The function `findSecretLagrange(points, k)`. -/
def findSecretLagrange (points : List Point) (k : Int) : Number :=
  let points := slice0 points k
  let x : Number := fin 0
  let result := (List.range points.length).foldl (sumStep x points) (fin 0)
  mathRound result

/-! ## `decodeValue` -/

/-- ECMA-262 `ToInt32`: truncate, reduce modulo `2^32`, read as a signed 32-bit integer;
`NaN`, the zeros and the infinities give `0`. -/
def toInt32 : Number → Int
  | fin q =>
    let t : Int := if 0 ≤ q then ⌊q⌋ else -⌊-q⌋
    let m : Int := t % 2 ^ 32
    if 2 ^ 31 ≤ m then m - 2 ^ 32 else m
  | _ => 0

/-- White space and line terminators removed by `parseInt` at the start of its input. -/
def isWhiteSpace (c : Char) : Bool :=
  decide (c.toNat ∈ [0x09, 0x0A, 0x0B, 0x0C, 0x0D, 0x20, 0xA0, 0x1680, 0x2000, 0x2001, 0x2002,
    0x2003, 0x2004, 0x2005, 0x2006, 0x2007, 0x2008, 0x2009, 0x200A, 0x2028, 0x2029, 0x202F,
    0x205F, 0x3000, 0xFEFF])

/-- Value of a digit character: `0-9`, then `a-z` or `A-Z` for ten to thirty-five. -/
def digitValue (c : Char) : Option Nat :=
  if 48 ≤ c.toNat ∧ c.toNat ≤ 57 then some (c.toNat - 48)
  else if 97 ≤ c.toNat ∧ c.toNat ≤ 122 then some (c.toNat - 97 + 10)
  else if 65 ≤ c.toNat ∧ c.toNat ≤ 90 then some (c.toNat - 65 + 10)
  else none

/-- Whether `c` is a digit of radix `R`. -/
def isRadixDigit (R : Nat) (c : Char) : Bool :=
  match digitValue c with
  | some d => decide (d < R)
  | none => false

/-- The integer written by a list of radix-`R` digits, most significant first. -/
def digitsValue (R : Nat) (Z : List Char) : Nat :=
  Z.foldl (fun acc c => acc * R + (digitValue c).getD 0) 0

/-- Whether the characters start with `0x` or `0X`. -/
def hasHexMark : List Char → Bool
  | c0 :: c1 :: _ => c0 == '0' && (c1 == 'x' || c1 == 'X')
  | _ => false

/-- Steps 7 to 15 of `parseInt`: `S1` is the input without leading white space and sign,
`negative` tells whether a `-` was removed, `R0` is `ToInt32(radix)`.  The digits are read
exactly and the integer is then converted to a Number.  (ECMA-262 lets an engine approximate
the integer when the radix is not 2, 4, 8, 10, 16 or 32, or after the twentieth significant
decimal digit; the embedding takes the exact reading.) -/
def parseIntBody (S1 : List Char) (negative : Bool) (R0 : Int) : Number :=
  if R0 ≠ 0 ∧ (R0 < 2 ∨ 36 < R0) then nan
  else
    let hexMark : Bool := decide (R0 = 0 ∨ R0 = 16) && hasHexMark S1
    let S2 := if hexMark then S1.drop 2 else S1
    let R : Nat := if hexMark then 16 else if R0 = 0 then 10 else R0.toNat
    let Z := S2.takeWhile (isRadixDigit R)
    if Z = [] then nan
    else
      let mathInt : Nat := digitsValue R Z
      if mathInt = 0 then zero negative
      else toDouble (if negative then -(mathInt : ℚ) else (mathInt : ℚ))

/-- The built-in `parseInt(string, radix)` of ECMA-262 (an omitted radix behaves as `NaN`,
since `ToInt32(undefined) = 0`): leading white space is dropped, then one sign, then
`parseIntBody` reads the digits. -/
def parseInt (string : String) (radix : Number) : Number :=
  let S0 := string.toList.dropWhile isWhiteSpace
  let negative : Bool := decide (S0.head? = some '-')
  let S1 := match S0 with
    | c :: t => if c = '+' ∨ c = '-' then t else S0
    | [] => S0
  parseIntBody S1 negative (toInt32 radix)

/-- The function `decodeValue(base, value)`: `parseInt(value, parseInt(base))`. -/
def decodeValue (base value : String) : Number :=
  parseInt value (parseInt base nan)

/-! ## `readPointsFromJson` and `processTestCase` -/

/-- One non-`keys` property of the input object: its name and its `base` / `value` fields. -/
structure Share where
  key : String
  base : String
  value : String
  deriving DecidableEq

/-- The input object of one test case: the integers `keys.n` and `keys.k`, and the other
properties in the order in which `for ... in` enumerates them. -/
structure Case where
  n : Int
  k : Int
  shares : List Share
  deriving DecidableEq

/-- The function `readPointsFromJson(data)`: the points `[parseInt(key), decodeValue(base, value)]`
together with `n` and `k`. -/
def readPointsFromJson (data : Case) : List Point × Int × Int :=
  (data.shares.map (fun s => (parseInt s.key nan, decodeValue s.base s.value)), data.n, data.k)

deriving instance DecidableEq for Except

/-- The body of the `try` block of `processTestCase`; `throw new Error(m)` is `Except.error m`. -/
def processTestCaseBody (data : Case) : Except String Number :=
  let (points, _, k) := readPointsFromJson data
  if (points.length : Int) < k then
    Except.error ("Insufficient points provided. Need " ++ toString k ++ " points but got "
      ++ toString points.length)
  else
    Except.ok (findSecretLagrange points k)

/-- The function `processTestCase(data)`: the `catch` clause rethrows every error with the
prefix `Error processing test case: `. -/
def processTestCase (data : Case) : Except String Number :=
  match processTestCaseBody data with
  | Except.ok secret => Except.ok secret
  | Except.error message => Except.error ("Error processing test case: " ++ message)

/-! ## `polynomial.js`: `readJsonFile` and `processAllTestCases` -/

/-- One name returned by `fs.readdir(testDir)`: the file name, the path
`path.join(testDir, file)`, and what `fs.readFile` followed by `JSON.parse` gives for it:
the parsed case, or the message of the error thrown. -/
structure DirEntry where
  file : String
  filePath : String
  content : Except String Case
  deriving DecidableEq

/-- One call of `console.log` or `console.error`; the line `file: Secret = secret` keeps the
secret as a Number. -/
inductive Output where
  | log (text : String)
  | secret (file : String) (value : Number)
  | error (label : String) (message : String)
  deriving DecidableEq

/-- What a call of `processAllTestCases` leaves behind: the console lines in order and, when
`process.exit` was called, the exit code. -/
structure Run where
  output : List Output
  exitCode : Option Nat
  deriving DecidableEq

/-- The function `readJsonFile(filePath)`: an error of reading or parsing is rethrown with the
prefix `Error reading file <filePath>: `. -/
def readJsonFile (e : DirEntry) : Except String Case :=
  match e.content with
  | Except.ok data => Except.ok data
  | Except.error message => Except.error ("Error reading file " ++ e.filePath ++ ": " ++ message)

/-- The callback given to `jsonFiles.map`: read the file, process the case, return
`{ file, secret }`. -/
def testCaseTask (e : DirEntry) : Except String (String × Number) :=
  match readJsonFile e with
  | Except.error message => Except.error message
  | Except.ok data =>
    match processTestCase data with
    | Except.error message => Except.error message
    | Except.ok secret => Except.ok (e.file, secret)

/-- The built-in `Promise.all`: when every task is fulfilled, the values in the order of the
tasks; otherwise the rejection of the task that is rejected first.  `settleOrder` lists task
indices in the order in which the tasks settle. -/
def promiseAll {α : Type} (tasks : List (Except String α)) (settleOrder : List Nat) :
    Except String (List α) :=
  match (settleOrder ++ List.range tasks.length).findSome? (fun i =>
      match tasks[i]? with
      | some (Except.error message) => some message
      | _ => none) with
  | some message => Except.error message
  | none => Except.ok (tasks.filterMap (fun t =>
      match t with
      | Except.ok v => some v
      | Except.error _ => none))

/-- The test `file.endsWith('.json')`. -/
def endsWithJson (file : String) : Bool := ".json".toList.isSuffixOf file.toList

/-- The body of the `try` block of `processAllTestCases`: `dir` is what `fs.readdir(testDir)`
gives, the names or the message of the error thrown. -/
def processAllTestCasesBody (dir : Except String (List DirEntry)) (settleOrder : List Nat) :
    Except String (List Output) :=
  match dir with
  | Except.error message => Except.error message
  | Except.ok files =>
    let jsonFiles := files.filter (fun e => endsWithJson e.file)
    match promiseAll (jsonFiles.map testCaseTask) settleOrder with
    | Except.error message => Except.error message
    | Except.ok results =>
      Except.ok ([Output.log "\nResults:", Output.log "--------"]
        ++ results.map (fun r => Output.secret r.1 r.2))

/-- The function `processAllTestCases(testDir)`: the `catch` clause prints the error and calls
`process.exit(1)`. -/
def processAllTestCases (dir : Except String (List DirEntry)) (settleOrder : List Nat) : Run :=
  match processAllTestCasesBody dir settleOrder with
  | Except.ok output => ⟨output, none⟩
  | Except.error message => ⟨[Output.error "Error processing test cases:" message], some 1⟩

/-! ## The exact readings the results are compared with -/

/-- The integer `Σ digit(s_i) * b^(len(s)-1-i)` written by the digit string `s` in base `b`. -/
def positionalValue (b : Nat) (s : List Char) : Nat :=
  ∑ i in Finset.range s.length, (digitValue (s.getD i '0')).getD 0 * b ^ (s.length - 1 - i)

/-- JavaScript `a === b` on Numbers: `NaN` equals nothing and the two zeros are equal. -/
def strictEquals (a b : Number) : Bool :=
  match a.toRat?, b.toRat? with
  | some qa, some qb => decide (qa = qb)
  | none, none => decide (a = b) && !decide (a = nan)
  | _, _ => false

/-- The rational `q` is a binary64 value: converting it to a Number changes nothing. -/
def IsDouble (q : ℚ) : Prop := (toDouble q).toRat? = some q

instance : DecidablePred IsDouble := fun q => inferInstanceAs (Decidable ((toDouble q).toRat? = some q))

/-- Mathematical value of the `x` coordinate of point `i` (`0` if it is not finite). -/
def xval (points : List Point) (i : Nat) : ℚ := ((points.getD i (nan, nan)).1.toRat?).getD 0

/-- Mathematical value of the `y` coordinate of point `i` (`0` if it is not finite). -/
def yval (points : List Point) (i : Nat) : ℚ := ((points.getD i (nan, nan)).2.toRat?).getD 0

/-- The first `k` points exist and have finite coordinates. -/
def FiniteUpTo (points : List Point) (k : Nat) : Prop :=
  ∀ i, i < k → ((points.getD i (nan, nan)).1.toRat?).isSome = true ∧
    ((points.getD i (nan, nan)).2.toRat?).isSome = true

/-- The first `k` abscissas are pairwise distinct. -/
def DistinctUpTo (points : List Point) (k : Nat) : Prop :=
  ∀ i, i < k → ∀ j, j < k → i ≠ j → xval points i ≠ xval points j

/-- The factor `(0 - x_i) / (x_j - x_i)` of the basis value `L_j(0)`. -/
def basisFactor (points : List Point) (j i : Nat) : ℚ :=
  (0 - xval points i) / (xval points j - xval points i)

/-- The product of the factors of `L_j(0)` over the indices `i < m`, `i ≠ j`. -/
def basisProd (points : List Point) (j m : Nat) : ℚ :=
  ∏ i in (Finset.range m).erase j, basisFactor points j i

/-- The sum of `y_j * L_j(0)` over `j < m`, each `L_j` taken over the first `k` points;
`lagrangeSum points k k` is the exact value `S` of the interpolation formula. -/
def lagrangeSum (points : List Point) (k m : Nat) : ℚ :=
  ∑ j in Finset.range m, yval points j * basisProd points j k

/-- No operation of the computation on the first `k` points rounds: every difference,
quotient, running product, term and running sum is a binary64 value. -/
def NoRounding (points : List Point) (k : Nat) : Prop :=
  (∀ j, j < k → ∀ i, i < k → i ≠ j →
    IsDouble (0 - xval points i) ∧ IsDouble (xval points j - xval points i) ∧
    IsDouble (basisFactor points j i) ∧ IsDouble (basisProd points j (i + 1))) ∧
  (∀ j, j < k →
    IsDouble (yval points j * basisProd points j k) ∧ IsDouble (lagrangeSum points k (j + 1)))

/-- None of the basis values `L_j(0)` computed on the first `k` points is `NaN` or an infinity:
no running product overflows. -/
def BasisFiniteUpTo (points : List Point) (k : Nat) : Prop :=
  ∀ j, j < k → ((lagrangeBasis j (fin 0) (points.take k)).toRat?).isSome = true

instance (points : List Point) (k : Nat) : Decidable (BasisFiniteUpTo points k) := by
  unfold BasisFiniteUpTo; infer_instance

instance (points : List Point) (k : Nat) : Decidable (NoRounding points k) := by
  unfold NoRounding; infer_instance

instance (points : List Point) (k : Nat) : Decidable (FiniteUpTo points k) := by
  unfold FiniteUpTo; infer_instance

instance (points : List Point) (k : Nat) : Decidable (DistinctUpTo points k) := by
  unfold DistinctUpTo; infer_instance

/-! ## Arithmetic on finite values -/

theorem toRat?_zero (s : Bool) : (zero s).toRat? = some 0 := by
  cases s <;> rfl

theorem toRat?_neg {a : Number} {q : ℚ} (h : a.toRat? = some q) : a.neg.toRat? = some (-q) := by
  cases a with
  | fin r =>
    simp only [toRat?, Option.some.injEq] at h
    subst h
    by_cases hr : r = 0
    · simp [Number.neg, hr, toRat?]
    · simp [Number.neg, hr, toRat?]
  | negZero =>
    simp only [toRat?, Option.some.injEq] at h
    subst h
    simp [Number.neg, toRat?]
  | nan => simp [toRat?] at h
  | posInf => simp [toRat?] at h
  | negInf => simp [toRat?] at h

theorem isDouble_zero : IsDouble 0 := by
  simp [IsDouble, toDouble, toRat?]

theorem mul_exact {a b : Number} {qa qb : ℚ} (ha : a.toRat? = some qa) (hb : b.toRat? = some qb)
    (h : IsDouble (qa * qb)) : (mul a b).toRat? = some (qa * qb) := by
  unfold mul
  rw [ha, hb]
  by_cases h0 : qa * qb = 0
  · simp only [h0, if_true, toRat?_zero]
  · simp only [h0, if_false]
    exact h

theorem div_exact {a b : Number} {qa qb : ℚ} (ha : a.toRat? = some qa) (hb : b.toRat? = some qb)
    (hne : qb ≠ 0) (h : IsDouble (qa / qb)) : (div a b).toRat? = some (qa / qb) := by
  unfold div
  rw [ha, hb]
  by_cases h0 : qa = 0
  · simp [hne, h0, toRat?_zero]
  · simp only [hne, h0, if_false]
    exact h

theorem add_exact {a b : Number} {qa qb : ℚ} (ha : a.toRat? = some qa) (hb : b.toRat? = some qb)
    (h : IsDouble (qa + qb)) : (add a b).toRat? = some (qa + qb) := by
  unfold add
  rw [ha, hb]
  by_cases h0 : qa = 0 ∧ qb = 0
  · simp [h0.1, h0.2, toRat?_zero]
  · by_cases h1 : qa + qb = 0
    · simp [h0, h1, toRat?]
    · simp only [h0, h1, if_false]
      exact h

theorem sub_exact {a b : Number} {qa qb : ℚ} (ha : a.toRat? = some qa) (hb : b.toRat? = some qb)
    (h : IsDouble (qa - qb)) : (sub a b).toRat? = some (qa - qb) := by
  unfold sub
  rw [sub_eq_add_neg] at h ⊢
  exact add_exact ha (toRat?_neg hb) h

theorem mathRound_toRat? {a : Number} {q : ℚ} (ha : a.toRat? = some q) :
    (mathRound a).toRat? = some ((⌊q + 1 / 2⌋ : ℤ) : ℚ) := by
  cases a with
  | fin r =>
    simp only [toRat?, Option.some.injEq] at ha
    subst ha
    unfold mathRound
    by_cases h : r < 0 ∧ ⌊r + 1 / 2⌋ = 0
    · simp only [h, and_self, if_true, toRat?, Int.cast_zero]
    · simp only [h, if_false, toRat?]
  | negZero =>
    simp only [toRat?, Option.some.injEq] at ha
    subst ha
    simp only [mathRound, toRat?]
    norm_num
  | nan => simp [toRat?] at ha
  | posInf => simp [toRat?] at ha
  | negInf => simp [toRat?] at ha

/-! ## The loops of `findSecretLagrange` when nothing rounds -/

theorem toRat?_x {points : List Point} {k i : Nat} (hfin : FiniteUpTo points k) (hi : i < k) :
    (points.getD i (nan, nan)).1.toRat? = some (xval points i) := by
  obtain ⟨q, hq⟩ := Option.isSome_iff_exists.mp (hfin i hi).1
  unfold xval
  rw [hq]
  rfl

theorem toRat?_y {points : List Point} {k i : Nat} (hfin : FiniteUpTo points k) (hi : i < k) :
    (points.getD i (nan, nan)).2.toRat? = some (yval points i) := by
  obtain ⟨q, hq⟩ := Option.isSome_iff_exists.mp (hfin i hi).2
  unfold yval
  rw [hq]
  rfl

theorem basisProd_zero (points : List Point) (j : Nat) : basisProd points j 0 = 1 := by
  simp [basisProd]

theorem basisProd_succ_self (points : List Point) (j : Nat) :
    basisProd points j (j + 1) = basisProd points j j := by
  unfold basisProd
  rw [Finset.range_succ, Finset.erase_insert (by simp),
    Finset.erase_eq_of_not_mem (by simp)]

theorem basisProd_succ_of_ne (points : List Point) {j m : Nat} (h : m ≠ j) :
    basisProd points j (m + 1) = basisProd points j m * basisFactor points j m := by
  unfold basisProd
  rw [Finset.range_succ, Finset.erase_insert_of_ne h, Finset.prod_insert (by simp), mul_comm]

theorem lagrangeSum_succ (points : List Point) (k m : Nat) :
    lagrangeSum points k (m + 1) =
      lagrangeSum points k m + yval points m * basisProd points m k := by
  unfold lagrangeSum
  rw [Finset.sum_range_succ]

/-- The inner loop after `m` turns holds the exact partial product. -/
theorem foldl_basisStep_exact {points : List Point} {k j : Nat}
    (hfin : FiniteUpTo points k) (hdist : DistinctUpTo points k) (hnr : NoRounding points k)
    (hj : j < k) (m : Nat) (hm : m ≤ k) :
    ((List.range m).foldl
        (basisStep j (fin 0) (points.getD j (nan, nan)).1 points) (fin 1)).toRat?
      = some (basisProd points j m) := by
  induction m with
  | zero => simp [basisProd_zero, toRat?]
  | succ m ih =>
    have hmk : m < k := hm
    rw [List.range_succ, List.foldl_append, List.foldl_cons, List.foldl_nil]
    have ih1 := ih (Nat.le_of_lt hmk)
    by_cases hmj : m = j
    · subst hmj
      rw [basisProd_succ_self]
      unfold basisStep
      rw [if_neg (by simp)]
      exact ih1
    · obtain ⟨h1, h2, h3, h4⟩ := hnr.1 j hj m hmk hmj
      have hx0 : (fin (0 : ℚ)).toRat? = some 0 := rfl
      have hnum := sub_exact hx0 (toRat?_x hfin hmk) h1
      have hden := sub_exact (toRat?_x hfin hj) (toRat?_x hfin hmk) h2
      have hne : xval points j - xval points m ≠ 0 :=
        sub_ne_zero.mpr (hdist j hj m hmk (Ne.symm hmj))
      have hquot := div_exact hnum hden hne h3
      rw [basisProd_succ_of_ne points hmj] at h4 ⊢
      have hprod := mul_exact ih1 hquot h4
      unfold basisStep
      rw [if_pos hmj]
      exact hprod

theorem lagrangeBasis_exact {points : List Point} {k j : Nat} (hlen : points.length = k)
    (hfin : FiniteUpTo points k) (hdist : DistinctUpTo points k) (hnr : NoRounding points k)
    (hj : j < k) :
    (lagrangeBasis j (fin 0) points).toRat? = some (basisProd points j k) := by
  unfold lagrangeBasis
  rw [hlen]
  exact foldl_basisStep_exact hfin hdist hnr hj k (Nat.le_refl k)

/-- The summation loop after `m` turns holds the exact partial sum. -/
theorem foldl_sumStep_exact {points : List Point} {k : Nat} (hlen : points.length = k)
    (hfin : FiniteUpTo points k) (hdist : DistinctUpTo points k) (hnr : NoRounding points k)
    (m : Nat) (hm : m ≤ k) :
    ((List.range m).foldl (sumStep (fin 0) points) (fin 0)).toRat?
      = some (lagrangeSum points k m) := by
  induction m with
  | zero => simp [lagrangeSum, toRat?]
  | succ m ih =>
    have hmk : m < k := hm
    rw [List.range_succ, List.foldl_append, List.foldl_cons, List.foldl_nil]
    have ih1 := ih (Nat.le_of_lt hmk)
    obtain ⟨h1, h2⟩ := hnr.2 m hmk
    have hterm := mul_exact (toRat?_y hfin hmk) (lagrangeBasis_exact hlen hfin hdist hnr hmk) h1
    rw [lagrangeSum_succ] at h2 ⊢
    unfold sumStep
    exact add_exact ih1 hterm h2

theorem slice0_natCast {α : Type} (xs : List α) (k : Nat) : slice0 xs (k : Int) = xs.take k := by
  unfold slice0
  rw [if_neg (by omega), Int.toNat_ofNat]

/-- Only the first `k` points enter the computation. -/
theorem findSecretLagrange_take (points : List Point) (k : Nat) :
    findSecretLagrange points (k : Int) = findSecretLagrange (points.take k) (k : Int) := by
  unfold findSecretLagrange
  rw [slice0_natCast, slice0_natCast, List.take_take, Nat.min_self]

theorem getD_take {α : Type} (xs : List α) {i k : Nat} (h : i < k) (d : α) :
    (xs.take k).getD i d = xs.getD i d := by
  rw [List.getD_eq_getElem?_getD, List.getD_eq_getElem?_getD, List.getElem?_take_of_lt h]

theorem xval_take (points : List Point) {i k : Nat} (h : i < k) :
    xval (points.take k) i = xval points i := by
  unfold xval
  rw [getD_take points h]

theorem yval_take (points : List Point) {i k : Nat} (h : i < k) :
    yval (points.take k) i = yval points i := by
  unfold yval
  rw [getD_take points h]

theorem basisFactor_take (points : List Point) {i j k : Nat} (hi : i < k) (hj : j < k) :
    basisFactor (points.take k) j i = basisFactor points j i := by
  unfold basisFactor
  rw [xval_take points hi, xval_take points hj]

theorem basisProd_take (points : List Point) {j m k : Nat} (hj : j < k) (hm : m ≤ k) :
    basisProd (points.take k) j m = basisProd points j m := by
  unfold basisProd
  apply Finset.prod_congr rfl
  intro i hi
  have hi1 : i < m := Finset.mem_range.mp (Finset.mem_of_mem_erase hi)
  exact basisFactor_take points (Nat.lt_of_lt_of_le hi1 hm) hj

theorem lagrangeSum_take (points : List Point) {m k : Nat} (hm : m ≤ k) :
    lagrangeSum (points.take k) k m = lagrangeSum points k m := by
  unfold lagrangeSum
  apply Finset.sum_congr rfl
  intro j hj
  have hj1 : j < k := Nat.lt_of_lt_of_le (Finset.mem_range.mp hj) hm
  rw [yval_take points hj1, basisProd_take points hj1 (Nat.le_refl k)]

theorem finiteUpTo_take {points : List Point} {k : Nat} (h : FiniteUpTo points k) :
    FiniteUpTo (points.take k) k := by
  intro i hi
  rw [getD_take points hi]
  exact h i hi

theorem distinctUpTo_take {points : List Point} {k : Nat} (h : DistinctUpTo points k) :
    DistinctUpTo (points.take k) k := by
  intro i hi j hj hij
  rw [xval_take points hi, xval_take points hj]
  exact h i hi j hj hij

theorem noRounding_take {points : List Point} {k : Nat} (h : NoRounding points k) :
    NoRounding (points.take k) k := by
  refine ⟨?_, ?_⟩
  · intro j hj i hi hij
    rw [xval_take points hi, xval_take points hj, basisFactor_take points hi hj,
      basisProd_take points hj (Nat.succ_le_of_lt hi)]
    exact h.1 j hj i hi hij
  · intro j hj
    rw [yval_take points hj, basisProd_take points hj (Nat.le_refl k),
      lagrangeSum_take points (Nat.succ_le_of_lt hj)]
    exact h.2 j hj

theorem length_le_of_finiteUpTo {points : List Point} {k : Nat} (h : FiniteUpTo points k) :
    k ≤ points.length := by
  by_contra hlt
  have hk : points.length < k := Nat.lt_of_not_le hlt
  have h1 := (h points.length hk).1
  rw [List.getD_eq_getElem?_getD, List.getElem?_eq_none (Nat.le_refl _)] at h1
  simp [toRat?] at h1

/-- When no operation rounds, `findSecretLagrange` returns the integer `⌊S + 1/2⌋`, where `S`
is the exact value of the interpolation formula on the first `k` points. -/
theorem findSecretLagrange_exact {points : List Point} {k : Nat}
    (hfin : FiniteUpTo points k) (hdist : DistinctUpTo points k) (hnr : NoRounding points k) :
    (findSecretLagrange points (k : Int)).toRat?
      = some ((⌊lagrangeSum points k k + 1 / 2⌋ : ℤ) : ℚ) := by
  have hlen : (points.take k).length = k :=
    List.length_take_of_le (length_le_of_finiteUpTo hfin)
  rw [findSecretLagrange_take, ← lagrangeSum_take points (Nat.le_refl k)]
  unfold findSecretLagrange
  rw [slice0_natCast, List.take_take, Nat.min_self]
  apply mathRound_toRat?
  have := foldl_sumStep_exact hlen (finiteUpTo_take hfin) (distinctUpTo_take hdist)
    (noRounding_take hnr) k (Nat.le_refl k)
  rw [hlen]
  exact this

/-! ## Integers up to `2^53` are binary64 values -/

theorem bitLengthAux_le (fuel : Nat) : ∀ (n b : Nat), n < 2 ^ b → bitLengthAux fuel n ≤ b := by
  induction fuel with
  | zero => intro n b _; simp [bitLengthAux]
  | succ fuel ih =>
    intro n b h
    unfold bitLengthAux
    by_cases hn : n = 0
    · simp [hn]
    · rw [if_neg hn]
      cases b with
      | zero => simp at h; exact absurd h hn
      | succ b =>
        have h2 : n / 2 < 2 ^ b := by
          rw [Nat.div_lt_iff_lt_mul (by decide)]
          rw [pow_succ] at h
          exact h
        exact Nat.succ_le_succ (ih (n / 2) b h2)

theorem roundHalfEven_intCast (z : ℤ) : roundHalfEven (z : ℚ) = z := by
  unfold roundHalfEven
  simp

theorem floorLog2_natCast_le (n : Nat) (h : n < 2 ^ 53) : floorLog2 (n : ℚ) ≤ 52 := by
  unfold floorLog2
  have h1 : bitLength n ≤ 53 := bitLengthAux_le n n 53 h
  have h2 : bitLength 1 = 1 := by decide
  simp only [Rat.num_natCast, Rat.den_natCast, Int.natAbs_ofNat, h2]
  split_ifs <;> omega

theorem toDoublePos_natCast (n : Nat) (h : n < 2 ^ 53) : toDoublePos (n : ℚ) = fin (n : ℚ) := by
  unfold toDoublePos
  have hp : ulpExp (n : ℚ) ≤ 0 := by
    unfold ulpExp
    have := floorLog2_natCast_le n h
    omega
  obtain ⟨s, hs⟩ := Int.exists_eq_neg_ofNat hp
  have hq : (n : ℚ) / (2 : ℚ) ^ (ulpExp (n : ℚ)) = ((n * 2 ^ s : ℤ) : ℚ) := by
    rw [hs, zpow_neg, zpow_natCast]
    push_cast
    field_simp
  have hv : (((n * 2 ^ s : ℤ) : ℤ) : ℚ) * (2 : ℚ) ^ (ulpExp (n : ℚ)) = (n : ℚ) := by
    rw [hs, zpow_neg, zpow_natCast]
    push_cast
    field_simp
  simp only [hq, roundHalfEven_intCast, hv]
  have hlt : (n : ℚ) < 2 ^ 53 := by exact_mod_cast h
  have : ¬ ((2 : ℚ) ^ (1024 : ℕ) ≤ (n : ℚ)) := by
    apply not_le.mpr
    apply lt_trans hlt
    norm_num
  rw [if_neg this]

/-- Every integer of magnitude at most `2^53` converts to itself. -/
theorem toDouble_intCast (z : ℤ) (h : |z| ≤ 2 ^ 53) : toDouble (z : ℚ) = fin (z : ℚ) := by
  have key : ∀ n : Nat, 0 < n → n ≤ 2 ^ 53 → toDoublePos (n : ℚ) = fin (n : ℚ) := by
    intro n _ hn
    rcases Nat.lt_or_eq_of_le hn with hlt | heq
    · exact toDoublePos_natCast n hlt
    · subst heq
      decide!
  unfold toDouble
  by_cases h0 : z = 0
  · simp [h0]
  · have hz0 : (z : ℚ) ≠ 0 := by exact_mod_cast h0
    rw [if_neg hz0]
    by_cases hpos : 0 < z
    · have hzq : (0 : ℚ) < z := by exact_mod_cast hpos
      rw [if_pos hzq]
      have hzn : z = (z.toNat : ℤ) := (Int.toNat_of_nonneg (le_of_lt hpos)).symm
      have habs : |z| = z := abs_of_pos hpos
      have := key z.toNat (by omega) (by omega)
      rw [hzn]
      exact_mod_cast this
    · have hneg : z < 0 := lt_of_le_of_ne (not_lt.mp hpos) h0
      have hzq : ¬ ((0 : ℚ) < z) := by
        have : (z : ℚ) < 0 := by exact_mod_cast hneg
        exact not_lt.mpr (le_of_lt this)
      rw [if_neg hzq]
      have habs : |z| = -z := abs_of_neg hneg
      have hzn : -z = ((-z).toNat : ℤ) := (Int.toNat_of_nonneg (by omega)).symm
      have := key (-z).toNat (by omega) (by omega)
      have hcast : (-(z : ℚ)) = (((-z).toNat : ℕ) : ℚ) := by
        have : ((-z : ℤ) : ℚ) = ((((-z).toNat : ℕ) : ℤ) : ℚ) := by rw [← hzn]
        push_cast at this
        exact this
      rw [hcast, this, ← hcast]
      have hne : -(z : ℚ) ≠ 0 := neg_ne_zero.mpr hz0
      simp [Number.neg, hne]

/-! ## Reading digit strings -/

theorem digitValue_range {c : Char} {d : Nat} (h : digitValue c = some d) :
    (48 ≤ c.toNat ∧ c.toNat ≤ 57) ∨ (97 ≤ c.toNat ∧ c.toNat ≤ 122) ∨
      (65 ≤ c.toNat ∧ c.toNat ≤ 90) := by
  unfold digitValue at h
  split_ifs at h with h1 h2 h3
  · exact Or.inl h1
  · exact Or.inr (Or.inl h2)
  · exact Or.inr (Or.inr h3)

theorem isRadixDigit_iff {R : Nat} {c : Char} :
    isRadixDigit R c = true ↔ ∃ d, digitValue c = some d ∧ d < R := by
  unfold isRadixDigit
  cases h : digitValue c with
  | none => simp
  | some d => simp

/-- A digit is neither white space nor a sign. -/
theorem not_space_of_isRadixDigit {R : Nat} {c : Char} (h : isRadixDigit R c = true) :
    isWhiteSpace c = false ∧ c ≠ '+' ∧ c ≠ '-' := by
  obtain ⟨d, hd, _⟩ := isRadixDigit_iff.mp h
  have hr := digitValue_range hd
  refine ⟨?_, ?_, ?_⟩
  · unfold isWhiteSpace
    simp only [List.mem_cons, List.mem_singleton, List.not_mem_nil, or_false,
      decide_eq_false_iff_not]
    omega
  · intro hc
    subst hc
    revert hr
    decide
  · intro hc
    subst hc
    revert hr
    decide

theorem takeWhile_append_stop {α : Type} (f : α → Bool) (p rest : List α)
    (hp : ∀ c ∈ p, f c = true) (hrest : ∀ c, rest.head? = some c → f c = false) :
    (p ++ rest).takeWhile f = p := by
  induction p with
  | nil =>
    cases rest with
    | nil => rfl
    | cons c r => simp [List.takeWhile, hrest c rfl]
  | cons a p ih =>
    have ha : f a = true := hp a (List.mem_cons_self a p)
    rw [List.cons_append, List.takeWhile_cons, if_pos ha,
      ih (fun c hc => hp c (List.mem_cons_of_mem a hc))]

theorem positionalValue_cons (b : Nat) (c : Char) (t : List Char) :
    positionalValue b (c :: t) =
      (digitValue c).getD 0 * b ^ t.length + positionalValue b t := by
  unfold positionalValue
  rw [List.length_cons, Finset.sum_range_succ', add_comm]
  congr 1
  apply Finset.sum_congr rfl
  intro i _
  have h1 : (c :: t).getD (i + 1) '0' = t.getD i '0' := rfl
  have h2 : t.length + 1 - 1 - (i + 1) = t.length - 1 - i := by omega
  rw [h1, h2]

theorem foldl_digits (b : Nat) (s : List Char) : ∀ acc : Nat,
    s.foldl (fun acc c => acc * b + (digitValue c).getD 0) acc
      = acc * b ^ s.length + positionalValue b s := by
  induction s with
  | nil => intro acc; simp [positionalValue]
  | cons c t ih =>
    intro acc
    rw [List.foldl_cons, ih, positionalValue_cons, List.length_cons, pow_succ]
    ring

/-- Reading the digits left to right gives the positional value. -/
theorem digitsValue_eq_positionalValue (b : Nat) (s : List Char) :
    digitsValue b s = positionalValue b s := by
  unfold digitsValue
  rw [foldl_digits]
  simp

/-- After an optional `-`, a body that starts with a digit is left as it is. -/
theorem parseInt_sign (string : String) (radix : Number) (sgn : Bool) (body : List Char)
    (hs : string.toList = (if sgn = true then ['-'] else []) ++ body)
    (hstart : sgn = false → ∀ c, body.head? = some c →
      isWhiteSpace c = false ∧ c ≠ '+' ∧ c ≠ '-') :
    parseInt string radix = parseIntBody body sgn (toInt32 radix) := by
  unfold parseInt
  rw [hs]
  cases sgn with
  | true =>
    have hw : isWhiteSpace '-' = false := by decide
    simp [List.dropWhile, hw]
  | false =>
    cases body with
    | nil => simp
    | cons c t =>
      obtain ⟨h1, h2, h3⟩ := hstart rfl c rfl
      simp [List.dropWhile, h1, h2, h3]

/-- The digit-reading steps on a run `p` of valid digits followed by `rest`. -/
theorem parseIntBody_digits (b : Nat) (sgn : Bool) (p rest : List Char)
    (hb2 : 2 ≤ b) (hb36 : b ≤ 36)
    (hp : ∀ c ∈ p, isRadixDigit b c = true)
    (hrest : ∀ c, rest.head? = some c → isRadixDigit b c = false)
    (hhex : b = 16 → hasHexMark (p ++ rest) = false) :
    parseIntBody (p ++ rest) sgn (b : Int) =
      if p = [] then nan
      else if positionalValue b p = 0 then zero sgn
      else toDouble (if sgn = true then -(positionalValue b p : ℚ)
        else (positionalValue b p : ℚ)) := by
  unfold parseIntBody
  have hR : ¬ ((b : Int) ≠ 0 ∧ ((b : Int) < 2 ∨ 36 < (b : Int))) := by omega
  rw [if_neg hR]
  have hb0 : ¬ ((b : Int) = 0) := by omega
  have hmark : (decide ((b : Int) = 0 ∨ (b : Int) = 16) && hasHexMark (p ++ rest)) = false := by
    by_cases h16 : b = 16
    · rw [hhex h16]; simp
    · have : ¬ ((b : Int) = 0 ∨ (b : Int) = 16) := by omega
      rw [decide_eq_false this]
      rfl
  simp only [hmark]
  simp only [Bool.false_eq_true, if_false, hb0, Int.toNat_ofNat]
  rw [takeWhile_append_stop _ p rest hp hrest, digitsValue_eq_positionalValue]

/-! ## Canonical decimal strings -/

theorem digitValue_digitChar : ∀ d : Fin 10, digitValue (Nat.digitChar d.val) = some d.val := by
  decide!

theorem isRadixDigit_digitChar (n : Nat) : isRadixDigit 10 (Nat.digitChar (n % 10)) = true := by
  have h := digitValue_digitChar ⟨n % 10, Nat.mod_lt n (by decide)⟩
  exact isRadixDigit_iff.mpr ⟨n % 10, h, Nat.mod_lt n (by decide)⟩

theorem toDigitsCore_spec (fuel : Nat) : ∀ (n : Nat) (ds : List Char), n < fuel →
    (∀ c ∈ ds, isRadixDigit 10 c = true) →
    (∀ c ∈ Nat.toDigitsCore 10 fuel n ds, isRadixDigit 10 c = true) ∧
    Nat.toDigitsCore 10 fuel n ds ≠ [] ∧
    (Nat.toDigitsCore 10 fuel n ds).foldl (fun acc c => acc * 10 + (digitValue c).getD 0) 0
      = ds.foldl (fun acc c => acc * 10 + (digitValue c).getD 0) n := by
  induction fuel with
  | zero => intro n ds h; exact absurd h (Nat.not_lt_zero n)
  | succ fuel ih =>
    intro n ds hn hds
    have hd := digitValue_digitChar ⟨n % 10, Nat.mod_lt n (by decide)⟩
    have hd1 : digitValue (Nat.digitChar (n % 10)) = some (n % 10) := hd
    have hall : ∀ c ∈ Nat.digitChar (n % 10) :: ds, isRadixDigit 10 c = true := by
      intro c hc
      rcases List.mem_cons.mp hc with h | h
      · rw [h]; exact isRadixDigit_digitChar n
      · exact hds c h
    unfold Nat.toDigitsCore
    by_cases h0 : n / 10 = 0
    · simp only [h0, if_true]
      refine ⟨hall, List.cons_ne_nil _ _, ?_⟩
      rw [List.foldl_cons, hd1]
      have : n % 10 = n := Nat.mod_eq_of_lt (by omega)
      simp [this]
    · simp only [h0, if_false]
      have hlt : n / 10 < fuel := by omega
      obtain ⟨h1, h2, h3⟩ := ih (n / 10) (Nat.digitChar (n % 10) :: ds) hlt hall
      refine ⟨h1, h2, ?_⟩
      rw [h3, List.foldl_cons, hd1]
      have : n / 10 * 10 + (some (n % 10)).getD 0 = n := by
        simp only [Option.getD_some]
        omega
      rw [this]

/-- The decimal digits of `n` are valid digits, there is at least one, and they read as `n`. -/
theorem toDigits_spec (n : Nat) :
    (∀ c ∈ Nat.toDigits 10 n, isRadixDigit 10 c = true) ∧ Nat.toDigits 10 n ≠ [] ∧
      positionalValue 10 (Nat.toDigits 10 n) = n := by
  obtain ⟨h1, h2, h3⟩ := toDigitsCore_spec (n + 1) n [] (Nat.lt_succ_self n)
    (fun c hc => absurd hc (List.not_mem_nil c))
  refine ⟨h1, h2, ?_⟩
  rw [← digitsValue_eq_positionalValue]
  unfold digitsValue Nat.toDigits
  rw [h3]
  rfl

theorem toList_toString_nat (n : Nat) : (toString n).toList = Nat.toDigits 10 n := rfl

theorem toList_toString_int (z : ℤ) :
    (toString z).toList =
      (if decide (z < 0) = true then ['-'] else []) ++ Nat.toDigits 10 z.natAbs := by
  cases z with
  | ofNat m =>
    have : ¬ (Int.ofNat m < 0) := by simp
    simp only [this, decide_False, Bool.false_eq_true, if_false, List.nil_append]
    rfl
  | negSucc m =>
    have : Int.negSucc m < 0 := Int.negSucc_lt_zero m
    simp only [this, decide_True, if_true]
    rfl

/-- Bases two to thirty-six, written in decimal, are read back as themselves. -/
theorem toInt32_parseInt_base : ∀ b : Fin 37, 2 ≤ b.val →
    toInt32 (parseInt (toString b.val) nan) = (b.val : Int) := by
  decide!

/-! ## Two selected points with the same abscissa -/

theorem toRat?_inf (s : Bool) : (inf s).toRat? = none := by
  cases s <;> rfl

theorem toRat?_eq_none_iff {a : Number} :
    a.toRat? = none ↔ a = nan ∨ a = posInf ∨ a = negInf := by
  cases a <;> simp [toRat?]

theorem mul_nonfinite_left {a : Number} (b : Number) (h : a.toRat? = none) :
    (mul a b).toRat? = none := by
  unfold mul
  rw [h]
  cases hb : b.toRat? with
  | none =>
    simp only []
    split_ifs
    · rfl
    · exact toRat?_inf _
  | some qb =>
    simp only []
    split_ifs
    · rfl
    · rfl
    · exact toRat?_inf _

theorem mul_nonfinite_right (a : Number) {b : Number} (h : b.toRat? = none) :
    (mul a b).toRat? = none := by
  unfold mul
  rw [h]
  cases ha : a.toRat? with
  | none =>
    simp only []
    split_ifs
    · rfl
    · exact toRat?_inf _
  | some qa =>
    simp only []
    split_ifs
    · rfl
    · rfl
    · exact toRat?_inf _

theorem add_nonfinite_left {a : Number} (b : Number) (h : a.toRat? = none) :
    (add a b).toRat? = none := by
  unfold add
  rw [h]
  cases hb : b.toRat? with
  | none =>
    simp only []
    split_ifs
    · exact h
    · rfl
  | some qb => exact h

theorem add_nonfinite_right (a : Number) {b : Number} (h : b.toRat? = none) :
    (add a b).toRat? = none := by
  unfold add
  rw [h]
  cases ha : a.toRat? with
  | none =>
    simp only []
    split_ifs
    · exact ha
    · rfl
  | some qa => exact h

/-- Dividing by a zero or by `NaN` never gives a finite number. -/
theorem div_nonfinite (a : Number) {den : Number} (h : den.toRat? = some 0 ∨ den = nan) :
    (div a den).toRat? = none := by
  unfold div
  rcases h with h | h
  · rw [h]
    cases ha : a.toRat? with
    | none =>
      simp only []
      split_ifs
      · rfl
      · exact toRat?_inf _
    | some qa =>
      simp only [if_true]
      split_ifs
      · rfl
      · exact toRat?_inf _
  · subst h
    cases ha : a.toRat? with
    | none => rfl
    | some qa => simp [toRat?]

/-- The difference of two equal abscissas is a zero, or `NaN` for two equal infinities. -/
theorem sub_of_strictEquals {a b : Number} (h : strictEquals a b = true) :
    (sub a b).toRat? = some 0 ∨ sub a b = nan := by
  unfold strictEquals at h
  cases ha : a.toRat? with
  | some qa =>
    cases hb : b.toRat? with
    | some qb =>
      rw [ha, hb] at h
      have hq : qa = qb := of_decide_eq_true h
      subst hq
      left
      have := sub_exact ha hb (by rw [sub_self]; exact isDouble_zero)
      rw [sub_self] at this
      exact this
    | none => rw [ha, hb] at h; exact absurd h (by simp)
  | none =>
    cases hb : b.toRat? with
    | some qb => rw [ha, hb] at h; exact absurd h (by simp)
    | none =>
      rw [ha, hb] at h
      simp only [Bool.and_eq_true, decide_eq_true_eq, Bool.not_eq_true', decide_eq_false_iff_not]
        at h
      obtain ⟨hab, hnan⟩ := h
      subst hab
      right
      rcases toRat?_eq_none_iff.mp ha with h1 | h1 | h1
      · exact absurd h1 hnan
      · subst h1; decide
      · subst h1; decide

theorem mathRound_nonfinite {a : Number} (h : a.toRat? = none) : (mathRound a).toRat? = none := by
  rcases toRat?_eq_none_iff.mp h with h1 | h1 | h1 <;> subst h1 <;> rfl

/-- Once the inner loop has met the index `i` whose abscissa equals that of `j`, the running
product is not finite. -/
theorem foldl_basisStep_nonfinite (points : List Point) (x : Number) {i j : Nat} (hij : i ≠ j)
    (heq : strictEquals (points.getD j (nan, nan)).1 (points.getD i (nan, nan)).1 = true)
    (m : Nat) (hm : i < m) :
    ((List.range m).foldl (basisStep j x (points.getD j (nan, nan)).1 points) (fin 1)).toRat?
      = none := by
  induction m with
  | zero => exact absurd hm (Nat.not_lt_zero i)
  | succ m ih =>
    rw [List.range_succ, List.foldl_append, List.foldl_cons, List.foldl_nil]
    by_cases hmi : m = i
    · subst hmi
      unfold basisStep
      rw [if_pos hij]
      exact mul_nonfinite_right _ (div_nonfinite _ (sub_of_strictEquals heq))
    · have him : i < m := by omega
      have ih1 := ih him
      unfold basisStep
      split_ifs
      · exact mul_nonfinite_left _ ih1
      · exact ih1

/-- Once the summation loop has met such an index `j`, the running sum is not finite. -/
theorem foldl_sumStep_nonfinite (points : List Point) (x : Number) {i j : Nat} (hij : i ≠ j)
    (hi : i < points.length)
    (heq : strictEquals (points.getD j (nan, nan)).1 (points.getD i (nan, nan)).1 = true)
    (m : Nat) (hm : j < m) :
    ((List.range m).foldl (sumStep x points) (fin 0)).toRat? = none := by
  induction m with
  | zero => exact absurd hm (Nat.not_lt_zero j)
  | succ m ih =>
    rw [List.range_succ, List.foldl_append, List.foldl_cons, List.foldl_nil]
    unfold sumStep
    by_cases hmj : m = j
    · subst hmj
      apply add_nonfinite_right
      apply mul_nonfinite_right
      unfold lagrangeBasis
      exact foldl_basisStep_nonfinite points x hij heq points.length hi
    · exact add_nonfinite_left _ (ih (by omega))

/-- With two equal abscissas among the first `k` points the result is `NaN` or an infinity. -/
theorem findSecretLagrange_nonfinite (points : List Point) (k i j : Nat) (hij : i ≠ j)
    (hi : i < k) (hj : j < k) (hk : k ≤ points.length)
    (heq : strictEquals (points.getD j (nan, nan)).1 (points.getD i (nan, nan)).1 = true) :
    (findSecretLagrange points (k : Int)).toRat? = none := by
  unfold findSecretLagrange
  rw [slice0_natCast]
  have hlen : (points.take k).length = k := List.length_take_of_le hk
  apply mathRound_nonfinite
  apply foldl_sumStep_nonfinite (points.take k) (fin 0) hij (by omega) _ _ (by omega)
  rw [getD_take points hi, getD_take points hj]
  exact heq

/-! ## The interpolation formula on the points of a polynomial -/

/-- The interpolation formula evaluated exactly recovers `P(0)` for a polynomial of degree
below the number of nodes. -/
theorem lagrangeSum_eq_eval_zero (points : List Point) (k : Nat) (P : Polynomial ℚ)
    (hdeg : P.degree < (k : WithBot ℕ)) (hdist : DistinctUpTo points k)
    (hy : ∀ i, i < k → yval points i = P.eval (xval points i)) :
    lagrangeSum points k k = P.eval 0 := by
  have hinj : Set.InjOn (xval points) (Finset.range k : Set ℕ) := by
    intro i hi j hj hij
    by_contra hne
    exact hdist i (Finset.mem_range.mp hi) j (Finset.mem_range.mp hj) hne hij
  have hP : P = Lagrange.interpolate (Finset.range k) (xval points) (yval points) :=
    Lagrange.eq_interpolate_of_eval_eq (yval points) hinj (by simpa using hdeg)
      (fun i hi => (hy i (Finset.mem_range.mp hi)).symm)
  rw [hP, Lagrange.interpolate_apply, Polynomial.eval_finset_sum]
  unfold lagrangeSum
  apply Finset.sum_congr rfl
  intro j _
  rw [Polynomial.eval_mul, Polynomial.eval_C, Lagrange.basis, Polynomial.eval_prod]
  congr 1
  unfold basisProd
  apply Finset.prod_congr rfl
  intro i _
  unfold basisFactor Lagrange.basisDivisor
  rw [Polynomial.eval_mul, Polynomial.eval_C, Polynomial.eval_sub, Polynomial.eval_X,
    Polynomial.eval_C, div_eq_mul_inv, mul_comm]

theorem take_eq_of_getElem? {α : Type} (k : Nat) (p q : List α)
    (h : ∀ i, i < k → p[i]? = q[i]?) : p.take k = q.take k := by
  apply List.ext_getElem?
  intro i
  by_cases hi : i < k
  · rw [List.getElem?_take_of_lt hi, List.getElem?_take_of_lt hi, h i hi]
  · rw [List.getElem?_take_eq_none (Nat.le_of_not_lt hi),
      List.getElem?_take_eq_none (Nat.le_of_not_lt hi)]

/-! ## Secret recovery: the claims -/

/-- C2, as stated, fails on the code: for `k = 3` and the points `(1, 3), (2, 6), (3, 11)` the
value returned by `findSecretLagrange` is not `0`. -/
theorem c2_counterexample :
    (findSecretLagrange [(fin 1, fin 3), (fin 2, fin 6), (fin 3, fin 11)] 3).toRat? ≠ some 0 := by
  decide!

/-- C2, amended: for `k = 3` and the points `(1, 3), (2, 6), (3, 11)`, `findSecretLagrange`
returns `2`, which is also the exact value of the interpolation formula (the points lie on
`x^2 + 2`; the point `(2, 6)` is not on `x^2 + 2x`). -/
theorem c2_example_returns_two :
    findSecretLagrange [(fin 1, fin 3), (fin 2, fin 6), (fin 3, fin 11)] 3 = fin 2 ∧
      lagrangeSum [(fin 1, fin 3), (fin 2, fin 6), (fin 3, fin 11)] 3 3 = 2 ∧
      (2 : ℚ) ^ 2 + 2 * 2 ≠ 6 := by
  decide!

/-- C4: for every `k ≥ 0` and every two point lists `p` and `q` that have at least `k` elements
and agree on their first `k` elements, in order, `findSecretLagrange(p, k)` equals
`findSecretLagrange(q, k)`: the points beyond the `k`-th never change the result. -/
theorem c4_first_k_selection (k : Nat) (p q : List Point)
    (_hp : k ≤ p.length) (_hq : k ≤ q.length) (h : ∀ i, i < k → p[i]? = q[i]?) :
    findSecretLagrange p (k : Int) = findSecretLagrange q (k : Int) := by
  rw [findSecretLagrange_take p, findSecretLagrange_take q, take_eq_of_getElem? k p q h]

/-- Witness for C4: two lists with the same first three points and different surplus. -/
theorem c4_first_k_selection_witness :
    findSecretLagrange [(fin 1, fin 3), (fin 2, fin 6), (fin 3, fin 11), (fin 4, fin 100)]
        ((3 : Nat) : Int)
      = findSecretLagrange
        [(fin 1, fin 3), (fin 2, fin 6), (fin 3, fin 11), (fin 9, fin 7), (fin 4, fin 1)]
        ((3 : Nat) : Int) :=
  c4_first_k_selection 3 _ _ (by decide) (by decide) (by decide)

theorem processTestCase_of_enough (data : Case) (h : data.k ≤ (data.shares.length : Int)) :
    processTestCase data
      = Except.ok (findSecretLagrange (readPointsFromJson data).1 data.k) := by
  unfold processTestCase processTestCaseBody readPointsFromJson
  simp only [List.length_map]
  rw [if_neg (not_lt.mpr h)]

theorem processTestCase_of_few (data : Case) (h : (data.shares.length : Int) < data.k) :
    processTestCase data
      = Except.error ("Error processing test case: " ++ ("Insufficient points provided. Need "
          ++ toString data.k ++ " points but got " ++ toString data.shares.length)) := by
  unfold processTestCase processTestCaseBody readPointsFromJson
  simp only [List.length_map]
  rw [if_pos h]

/-- C5, as stated, fails on the code: the case with the properties `1`, `3` and `01` decodes to
the points `(1, 2), (3, 11), (1, 6)`, two of which share the abscissa `1`, and with `k = 3`
both `findSecretLagrange` and `processTestCase` return `-Infinity`; no error is raised. -/
theorem c5_counterexample :
    readPointsFromJson ⟨3, 3, [⟨"1", "10", "2"⟩, ⟨"3", "10", "11"⟩, ⟨"01", "10", "6"⟩]⟩
        = ([(fin 1, fin 2), (fin 3, fin 11), (fin 1, fin 6)], 3, 3) ∧
      findSecretLagrange [(fin 1, fin 2), (fin 3, fin 11), (fin 1, fin 6)] 3 = negInf ∧
      processTestCase ⟨3, 3, [⟨"1", "10", "2"⟩, ⟨"3", "10", "11"⟩, ⟨"01", "10", "6"⟩]⟩
        = Except.ok negInf := by
  decide!

/-- C5, amended: for every point list and `k` such that two of the first `k` points have the
same abscissa (JavaScript `===`), `findSecretLagrange` raises no error and returns `NaN`,
`Infinity` or `-Infinity`, never a finite secret; and `processTestCase`, on a case that decodes
to these points with this `k`, returns that very value. -/
theorem c5_duplicate_abscissa (points : List Point) (k i j : Nat) (hij : i ≠ j)
    (hi : i < k) (hj : j < k) (hk : k ≤ points.length)
    (heq : strictEquals (points.getD j (nan, nan)).1 (points.getD i (nan, nan)).1 = true) :
    (findSecretLagrange points (k : Int) = nan ∨ findSecretLagrange points (k : Int) = posInf ∨
        findSecretLagrange points (k : Int) = negInf) ∧
      ∀ data : Case, (readPointsFromJson data).1 = points → data.k = (k : Int) →
        processTestCase data = Except.ok (findSecretLagrange points (k : Int)) := by
  refine ⟨toRat?_eq_none_iff.mp (findSecretLagrange_nonfinite points k i j hij hi hj hk heq), ?_⟩
  intro data hpts hdk
  have hlen : data.shares.length = points.length := by
    rw [← hpts]
    simp [readPointsFromJson]
  rw [processTestCase_of_enough data (by rw [hdk, hlen]; exact_mod_cast hk), hpts, hdk]

/-- Witness for C5: the points `(1, 2), (3, 11), (1, 6)` with `k = 3`. -/
theorem c5_duplicate_abscissa_witness :
    (findSecretLagrange [(fin 1, fin 2), (fin 3, fin 11), (fin 1, fin 6)] ((3 : Nat) : Int) = nan ∨
      findSecretLagrange [(fin 1, fin 2), (fin 3, fin 11), (fin 1, fin 6)] ((3 : Nat) : Int)
        = posInf ∨
      findSecretLagrange [(fin 1, fin 2), (fin 3, fin 11), (fin 1, fin 6)] ((3 : Nat) : Int)
        = negInf) ∧
      processTestCase ⟨3, 3, [⟨"1", "10", "2"⟩, ⟨"3", "10", "11"⟩, ⟨"01", "10", "6"⟩]⟩
        = Except.ok (findSecretLagrange [(fin 1, fin 2), (fin 3, fin 11), (fin 1, fin 6)]
            ((3 : Nat) : Int)) :=
  ⟨(c5_duplicate_abscissa [(fin 1, fin 2), (fin 3, fin 11), (fin 1, fin 6)] 3 0 2
      (by decide) (by decide) (by decide) (by decide) (by decide!)).1,
   (c5_duplicate_abscissa [(fin 1, fin 2), (fin 3, fin 11), (fin 1, fin 6)] 3 0 2
      (by decide) (by decide) (by decide) (by decide) (by decide!)).2
      ⟨3, 3, [⟨"1", "10", "2"⟩, ⟨"3", "10", "11"⟩, ⟨"01", "10", "6"⟩]⟩ (by decide!) (by decide)⟩

theorem hasHexMark_of_digits (l : List Char) (h : ∀ c ∈ l, isRadixDigit 16 c = true) :
    hasHexMark l = false := by
  match l, h with
  | [], _ => rfl
  | [_], _ => rfl
  | c0 :: c1 :: t, h =>
    have h1 : isRadixDigit 16 c1 = true := h c1 (by simp)
    have hx : isRadixDigit 16 'x' = false := by decide
    have hX : isRadixDigit 16 'X' = false := by decide
    have n1 : c1 ≠ 'x' := by
      intro hc
      rw [hc, hx] at h1
      exact absurd h1 (by decide)
    have n2 : c1 ≠ 'X' := by
      intro hc
      rw [hc, hX] at h1
      exact absurd h1 (by decide)
    simp [hasHexMark, n1, n2]

theorem toDouble_zero : toDouble 0 = fin 0 := by
  unfold toDouble
  rw [if_pos rfl]

/-- What `decodeValue` returns on a run `p` of valid digits followed by `rest`. -/
theorem decodeValue_digits (b : Nat) (s : String) (p rest : List Char)
    (hb2 : 2 ≤ b) (hb36 : b ≤ 36) (hs : s.toList = p ++ rest)
    (hp : ∀ c ∈ p, isRadixDigit b c = true)
    (hrest : ∀ c, rest.head? = some c → isRadixDigit b c = false)
    (hstart : p = [] → ∀ c, rest.head? = some c → isWhiteSpace c = false ∧ c ≠ '+' ∧ c ≠ '-')
    (hhex : b = 16 → hasHexMark s.toList = false) :
    decodeValue (toString b) s
      = if p = [] then nan else toDouble (positionalValue b p : ℚ) := by
  unfold decodeValue
  have hR : toInt32 (parseInt (toString b) nan) = (b : Int) :=
    toInt32_parseInt_base ⟨b, by omega⟩ hb2
  have hbody : ∀ c, (p ++ rest).head? = some c →
      isWhiteSpace c = false ∧ c ≠ '+' ∧ c ≠ '-' := by
    intro c hc
    cases p with
    | nil => exact hstart rfl c hc
    | cons a t =>
      have hca : a = c := by simpa using hc
      rw [← hca]
      exact not_space_of_isRadixDigit (hp a (List.mem_cons_self a t))
  rw [parseInt_sign s _ false (p ++ rest) (by simpa using hs) (fun _ => hbody), hR,
    parseIntBody_digits b false p rest hb2 hb36 hp hrest (fun h16 => by rw [← hs]; exact hhex h16)]
  by_cases hp0 : p = []
  · rw [if_pos hp0, if_pos hp0]
  · rw [if_neg hp0, if_neg hp0]
    by_cases hv : positionalValue b p = 0
    · rw [if_pos hv, hv]
      simp [zero, toDouble_zero]
    · rw [if_neg hv]
      simp

theorem parseInt_radix_congr (string : String) (r1 r2 : Number)
    (h : toInt32 r1 = toInt32 r2) : parseInt string r1 = parseInt string r2 := by
  unfold parseInt
  simp only []
  rw [h]

theorem parseInt_radix_out_of_range (string : String) (radix : Number)
    (h0 : toInt32 radix ≠ 0) (hr : toInt32 radix < 2 ∨ 36 < toInt32 radix) :
    parseInt string radix = nan := by
  unfold parseInt
  simp only []
  unfold parseIntBody
  rw [if_pos ⟨h0, hr⟩]

/-- C9, as stated, fails on the code: with the base `0`, which is below two, the value `12` is
decoded to the number `12`; and with the base `1` the result is the Number `NaN`, returned,
not raised. -/
theorem c9_counterexample :
    decodeValue "0" "12" = fin 12 ∧ decodeValue "xyz" "12" = fin 12 ∧
      decodeValue "1" "12" = nan := by
  decide!

/-- C9, amended: let `R = ToInt32(parseInt(base))` be the radix the code computes.  For every
base with `R` non-zero and outside `2..36` and every value string, `decodeValue` raises no
error and returns `NaN`; for every base with `R = 0` (the base `0`, or one that is not a
number) the value is decoded as by `parseInt(value)` without a radix, i.e. in base ten, or
sixteen after `0x`. -/
theorem c9_base_out_of_range (base value : String) :
    (toInt32 (parseInt base nan) ≠ 0 →
      (toInt32 (parseInt base nan) < 2 ∨ 36 < toInt32 (parseInt base nan)) →
      decodeValue base value = nan) ∧
    (toInt32 (parseInt base nan) = 0 → decodeValue base value = parseInt value nan) := by
  constructor
  · intro h0 hr
    exact parseInt_radix_out_of_range value _ h0 hr
  · intro h0
    exact parseInt_radix_congr value _ _ h0

/-- Witness for C9: base `37` gives `NaN`, base `0` decodes `0x1f` as hexadecimal. -/
theorem c9_base_out_of_range_witness :
    decodeValue "37" "12" = nan ∧ decodeValue "0" "0x1f" = parseInt "0x1f" nan ∧
      parseInt "0x1f" nan = fin 31 :=
  ⟨(c9_base_out_of_range "37" "12").1 (by decide!) (by decide!),
   (c9_base_out_of_range "0" "0x1f").2 (by decide!),
   by decide!⟩

/-- C10, as stated, fails on the code: the decimal string of `V = 2^53 + 1` is decoded in base
ten to `2^53`. -/
theorem c10_counterexample :
    toString (9007199254740993 : ℤ) = "9007199254740993" ∧
      decodeValue "10" (toString (9007199254740993 : ℤ)) = fin 9007199254740992 ∧
      (9007199254740992 : ℚ) ≠ 9007199254740993 := by
  decide!

/-- C10, amended: for every integer `V`, `decodeValue(10, canonical decimal string of V)` is
`V` converted to a Number, that is rounded to the nearest binary64 value; it is `V` itself
whenever `|V| ≤ 2^53`. -/
theorem c10_decimal_round_trip (V : ℤ) :
    decodeValue "10" (toString V) = toDouble (V : ℚ) ∧
      (|V| ≤ 2 ^ 53 → decodeValue "10" (toString V) = fin (V : ℚ)) := by
  have hR : toInt32 (parseInt "10" nan) = ((10 : Nat) : Int) := by decide!
  obtain ⟨hd1, hd2, hd3⟩ := toDigits_spec V.natAbs
  have hbody : ∀ c, (Nat.toDigits 10 V.natAbs).head? = some c →
      isWhiteSpace c = false ∧ c ≠ '+' ∧ c ≠ '-' := fun c hc =>
    not_space_of_isRadixDigit (hd1 c (List.mem_of_mem_head? hc))
  have hmain : decodeValue "10" (toString V) = toDouble (V : ℚ) := by
    unfold decodeValue
    rw [parseInt_sign (toString V) _ (decide (V < 0)) (Nat.toDigits 10 V.natAbs)
        (toList_toString_int V) (fun _ => hbody), hR]
    have hb := parseIntBody_digits 10 (decide (V < 0)) (Nat.toDigits 10 V.natAbs) []
      (by decide) (by decide) hd1 (fun c hc => by simp at hc) (fun h => by simp at h)
    rw [List.append_nil] at hb
    rw [hb, if_neg hd2, hd3]
    by_cases hV : V = 0
    · subst hV
      simp [zero, toDouble_zero]
    · have hn : V.natAbs ≠ 0 := Int.natAbs_ne_zero.mpr hV
      rw [if_neg hn]
      congr 1
      by_cases hneg : V < 0
      · simp only [hneg, decide_True, if_true]
        have h1 : ((V.natAbs : ℕ) : ℚ) = (((V.natAbs : ℕ) : ℤ) : ℚ) :=
          (Int.cast_natCast _).symm
        rw [h1, Int.ofNat_natAbs_of_nonpos (le_of_lt hneg), Int.cast_neg, neg_neg]
      · simp only [hneg, decide_False, Bool.false_eq_true, if_false]
        have h1 : ((V.natAbs : ℕ) : ℚ) = (((V.natAbs : ℕ) : ℤ) : ℚ) :=
          (Int.cast_natCast _).symm
        rw [h1, Int.natAbs_of_nonneg (not_lt.mp hneg)]
  exact ⟨hmain, fun hle => by rw [hmain]; exact toDouble_intCast V hle⟩

/-- Witness for C10: the string of `-42` is decoded to `-42`. -/
theorem c10_decimal_round_trip_witness :
    toString (-42 : ℤ) = "-42" ∧ decodeValue "10" (toString (-42 : ℤ)) = fin ((-42 : ℤ) : ℚ) :=
  ⟨by decide, (c10_decimal_round_trip (-42)).2 (by decide)⟩

/-! ## Case processing: the claims -/

/-- C12, as stated, fails on the code: two different cases fail with the same wrapped error,
so the error does not identify the case being processed. -/
theorem c12_counterexample :
    (⟨3, 3, [⟨"1", "10", "3"⟩]⟩ : Case) ≠ ⟨3, 3, [⟨"2", "10", "6"⟩]⟩ ∧
      processTestCase ⟨3, 3, [⟨"1", "10", "3"⟩]⟩ = Except.error
        "Error processing test case: Insufficient points provided. Need 3 points but got 1" ∧
      processTestCase ⟨3, 3, [⟨"2", "10", "6"⟩]⟩ = Except.error
        "Error processing test case: Insufficient points provided. Need 3 points but got 1" := by
  decide!

/-- C12, amended: every failure of `processTestCase` surfaces as exactly one error whose message
is `Error processing test case: ` followed by the message of the underlying cause, and every
error raised in the `try` block is rethrown in this form, none escapes unwrapped; a result
of the block is returned as it is.  The error carries no identification of the case. -/
theorem c12_failures_wrapped (data : Case) :
    (∀ cause, processTestCaseBody data = Except.error cause →
      processTestCase data = Except.error ("Error processing test case: " ++ cause)) ∧
    (∀ message, processTestCase data = Except.error message →
      ∃ cause, processTestCaseBody data = Except.error cause ∧
        message = "Error processing test case: " ++ cause) ∧
    (∀ secret, processTestCaseBody data = Except.ok secret →
      processTestCase data = Except.ok secret) := by
  unfold processTestCase
  cases h : processTestCaseBody data with
  | error cause =>
    refine ⟨fun c hc => ?_, fun m hm => ?_, fun s hs => ?_⟩
    · cases hc; rfl
    · cases hm; exact ⟨cause, rfl, rfl⟩
    · cases hs
  | ok secret =>
    refine ⟨fun c hc => ?_, fun m hm => ?_, fun s hs => ?_⟩
    · cases hc
    · cases hm
    · cases hs; rfl

/-- Witness for C12: the insufficient-points error of a case with one share and `k = 3`. -/
theorem c12_failures_wrapped_witness :
    processTestCase ⟨3, 3, [⟨"1", "10", "3"⟩]⟩ = Except.error
      ("Error processing test case: "
        ++ "Insufficient points provided. Need 3 points but got 1") :=
  (c12_failures_wrapped ⟨3, 3, [⟨"1", "10", "3"⟩]⟩).1
    "Insufficient points provided. Need 3 points but got 1" (by decide!)

theorem promiseAll_error {α : Type} (tasks : List (Except String α)) (settleOrder : List Nat)
    (h : ∃ m, Except.error m ∈ tasks) :
    ∃ m, Except.error m ∈ tasks ∧ promiseAll tasks settleOrder = Except.error m := by
  unfold promiseAll
  cases hfs : (settleOrder ++ List.range tasks.length).findSome? (fun i =>
      match tasks[i]? with
      | some (Except.error message) => some message
      | _ => none) with
  | none =>
    exfalso
    obtain ⟨m, hm⟩ := h
    obtain ⟨i, hi⟩ := List.mem_iff_getElem?.mp hm
    have hlt : i < tasks.length := by
      by_contra hge
      rw [List.getElem?_eq_none (Nat.le_of_not_lt hge)] at hi
      cases hi
    have := List.findSome?_eq_none_iff.mp hfs i
      (List.mem_append_right _ (List.mem_range.mpr hlt))
    simp only [hi] at this
    cases this
  | some m =>
    obtain ⟨i, _, hi⟩ := List.exists_of_findSome?_eq_some hfs
    refine ⟨m, ?_, rfl⟩
    cases ht : tasks[i]? with
    | none => simp only [ht] at hi; cases hi
    | some t =>
      cases t with
      | ok v => simp only [ht] at hi; cases hi
      | error m1 =>
        simp only [ht, Option.some.injEq] at hi
        subst hi
        exact List.mem_iff_getElem?.mpr ⟨i, ht⟩

theorem promiseAll_ok {α β : Type} (l : List β) (f : β → Except String α) (g : β → α)
    (settleOrder : List Nat) (h : ∀ e ∈ l, f e = Except.ok (g e)) :
    promiseAll (l.map f) settleOrder = Except.ok (l.map g) := by
  unfold promiseAll
  have hnone : (settleOrder ++ List.range (l.map f).length).findSome? (fun i =>
      match (l.map f)[i]? with
      | some (Except.error message) => some message
      | _ => none) = none := by
    rw [List.findSome?_eq_none_iff]
    intro i _
    cases ht : (l.map f)[i]? with
    | none => rfl
    | some t =>
      have hmem : t ∈ l.map f := List.mem_iff_getElem?.mpr ⟨i, ht⟩
      obtain ⟨e, he, hfe⟩ := List.mem_map.mp hmem
      rw [h e he] at hfe
      subst hfe
      rfl
  rw [hnone]
  simp only []
  congr 1
  clear hnone
  induction l with
  | nil => rfl
  | cons a t ih =>
    rw [List.map_cons, List.map_cons, List.filterMap_cons, h a (List.mem_cons_self a t)]
    simp only []
    rw [ih (fun e he => h e (List.mem_cons_of_mem a he))]

/-- C13, as stated, fails on the code: of two files, `a.json` fails (two shares for `k = 3`) and
`b.json` would succeed on its own with the secret `2`; `processAllTestCases` prints the error
only and exits with code `1`, whatever the order in which the two tasks settle. -/
theorem c13_counterexample :
    processTestCase ⟨3, 3, [⟨"1", "10", "3"⟩, ⟨"2", "10", "6"⟩, ⟨"3", "10", "11"⟩]⟩
        = Except.ok (fin 2) ∧
      (∀ settleOrder ∈ [[0, 1], [1, 0]],
        processAllTestCases (Except.ok
          [⟨"a.json", "test-cases/a.json",
              Except.ok ⟨3, 3, [⟨"1", "10", "3"⟩, ⟨"2", "10", "6"⟩]⟩⟩,
           ⟨"b.json", "test-cases/b.json",
              Except.ok ⟨3, 3, [⟨"1", "10", "3"⟩, ⟨"2", "10", "6"⟩, ⟨"3", "10", "11"⟩]⟩⟩])
          settleOrder
        = ⟨[Output.error "Error processing test cases:"
              "Error processing test case: Insufficient points provided. Need 3 points but got 2"],
            some 1⟩) := by
  decide!

/-- C13, amended: when several cases are processed together by `processAllTestCases` and some
`.json` case fails, no secret is reported at all: the only output is one error line, with the
message of one failing case, and the process exits with code `1`.  The secrets are reported,
one line per `.json` file in the order of the directory listing, only when every case
succeeds. -/
theorem c13_all_or_nothing (files : List DirEntry) (settleOrder : List Nat) :
    ((∃ e ∈ files, endsWithJson e.file = true ∧ ∃ m, testCaseTask e = Except.error m) →
      ∃ e ∈ files, endsWithJson e.file = true ∧ ∃ m, testCaseTask e = Except.error m ∧
        processAllTestCases (Except.ok files) settleOrder
          = ⟨[Output.error "Error processing test cases:" m], some 1⟩) ∧
    (∀ secretOf : DirEntry → Number,
      (∀ e ∈ files, endsWithJson e.file = true →
        testCaseTask e = Except.ok (e.file, secretOf e)) →
      processAllTestCases (Except.ok files) settleOrder
        = ⟨[Output.log "\nResults:", Output.log "--------"] ++
            (files.filter (fun e => endsWithJson e.file)).map
              (fun e => Output.secret e.file (secretOf e)), none⟩) := by
  constructor
  · rintro ⟨e, he, hjson, m, hm⟩
    have hmem : ∃ m, Except.error m ∈
        (files.filter (fun e => endsWithJson e.file)).map testCaseTask :=
      ⟨m, List.mem_map.mpr ⟨e, List.mem_filter.mpr ⟨he, hjson⟩, hm⟩⟩
    obtain ⟨m1, hm1, hall⟩ := promiseAll_error _ settleOrder hmem
    obtain ⟨e1, he1, hfe1⟩ := List.mem_map.mp hm1
    obtain ⟨he1f, he1j⟩ := List.mem_filter.mp he1
    refine ⟨e1, he1f, he1j, m1, hfe1, ?_⟩
    unfold processAllTestCases processAllTestCasesBody
    simp only [hall]
  · intro secretOf h
    have hall := promiseAll_ok (files.filter (fun e => endsWithJson e.file)) testCaseTask
      (fun e => (e.file, secretOf e)) settleOrder
      (fun e he => h e (List.mem_filter.mp he).1 (List.mem_filter.mp he).2)
    unfold processAllTestCases processAllTestCasesBody
    simp only [hall, List.map_map]
    rfl

/-- Witness for C13: the failing pair of files, and the file `b.json` alone. -/
theorem c13_all_or_nothing_witness :
    (∃ e ∈ [(⟨"a.json", "test-cases/a.json",
              Except.ok ⟨3, 3, [⟨"1", "10", "3"⟩, ⟨"2", "10", "6"⟩]⟩⟩ : DirEntry),
            ⟨"b.json", "test-cases/b.json",
              Except.ok ⟨3, 3, [⟨"1", "10", "3"⟩, ⟨"2", "10", "6"⟩, ⟨"3", "10", "11"⟩]⟩⟩],
        endsWithJson e.file = true ∧ ∃ m, testCaseTask e = Except.error m ∧
        processAllTestCases (Except.ok
          [⟨"a.json", "test-cases/a.json",
              Except.ok ⟨3, 3, [⟨"1", "10", "3"⟩, ⟨"2", "10", "6"⟩]⟩⟩,
           ⟨"b.json", "test-cases/b.json",
              Except.ok ⟨3, 3, [⟨"1", "10", "3"⟩, ⟨"2", "10", "6"⟩, ⟨"3", "10", "11"⟩]⟩⟩]) [1, 0]
          = ⟨[Output.error "Error processing test cases:" m], some 1⟩) ∧
      processAllTestCases (Except.ok
          [⟨"b.json", "test-cases/b.json",
              Except.ok ⟨3, 3, [⟨"1", "10", "3"⟩, ⟨"2", "10", "6"⟩, ⟨"3", "10", "11"⟩]⟩⟩]) []
        = ⟨[Output.log "\nResults:", Output.log "--------"] ++
            ([(⟨"b.json", "test-cases/b.json",
              Except.ok ⟨3, 3, [⟨"1", "10", "3"⟩, ⟨"2", "10", "6"⟩, ⟨"3", "10", "11"⟩]⟩⟩ :
                DirEntry)].filter (fun e => endsWithJson e.file)).map
              (fun e => Output.secret e.file (fin 2)), none⟩ :=
  ⟨(c13_all_or_nothing _ [1, 0]).1
      ⟨⟨"a.json", "test-cases/a.json",
          Except.ok ⟨3, 3, [⟨"1", "10", "3"⟩, ⟨"2", "10", "6"⟩]⟩⟩, by simp, by decide,
        "Error processing test case: Insufficient points provided. Need 3 points but got 2",
        by decide!⟩,
   (c13_all_or_nothing _ []).2 (fun _ => fin 2) (by
      intro e he _
      have : e = ⟨"b.json", "test-cases/b.json",
          Except.ok ⟨3, 3, [⟨"1", "10", "3"⟩, ⟨"2", "10", "6"⟩, ⟨"3", "10", "11"⟩]⟩⟩ := by
        simpa using he
      subst this
      decide!)⟩

/-- C15: the declared share count `n` is purely informational: two cases that differ only in
`keys.n` (same shares in the same order, same `k`) have the same outcome of `processTestCase`,
the same secret or the same error. -/
theorem c15_n_informational (n1 n2 k : Int) (shares : List Share) :
    processTestCase ⟨n1, k, shares⟩ = processTestCase ⟨n2, k, shares⟩ := rfl

theorem mathRound_zero : mathRound (fin 0) = fin 0 := by decide!

/-- C17: a zero threshold is accepted silently: for every point list, the empty one included,
`findSecretLagrange(points, 0)` returns `0`, the empty sum, and `processTestCase` with `k = 0`
raises no error and returns `0`. -/
theorem c17_zero_threshold (points : List Point) :
    findSecretLagrange points 0 = fin 0 ∧ lagrangeSum points 0 0 = 0 ∧
      ∀ (n : Int) (shares : List Share), processTestCase ⟨n, 0, shares⟩ = Except.ok (fin 0) := by
  have h0 : ∀ pts : List Point, findSecretLagrange pts 0 = fin 0 := by
    intro pts
    have := findSecretLagrange_take pts 0
    simp only [Nat.cast_zero, List.take_zero] at this
    rw [this]
    decide!
  refine ⟨h0 points, by simp [lagrangeSum], ?_⟩
  intro n shares
  rw [processTestCase_of_enough _ (by simp)]
  exact congrArg Except.ok (h0 _)

theorem exists_index_of_mem_take {α : Type} (l : List α) (k : Nat) (d x : α)
    (h : x ∈ l.take k) : ∃ i, i < k ∧ l.getD i d = x := by
  obtain ⟨i, hi⟩ := List.mem_iff_getElem?.mp h
  have hik : i < k := by
    by_contra hge
    rw [List.getElem?_take_eq_none (Nat.le_of_not_lt hge)] at hi
    cases hi
  refine ⟨i, hik, ?_⟩
  rw [← getD_take l hik d, List.getD_eq_getElem?_getD, hi]
  rfl

theorem getD_mem_take {α : Type} (l : List α) {i k : Nat} (d : α) (hi : i < k)
    (hk : k ≤ l.length) : l.getD i d ∈ l.take k := by
  have hlt : i < l.length := Nat.lt_of_lt_of_le hi hk
  rw [List.mem_iff_getElem?]
  refine ⟨i, ?_⟩
  rw [List.getElem?_take_of_lt hi, List.getD_eq_getElem?_getD, List.getElem?_eq_getElem hlt]
  rfl

/-- The exact value of the interpolation formula does not depend on the order of the selected
points. -/
theorem lagrangeSum_perm (p q : List Point) (k : Nat)
    (hdp : DistinctUpTo p k) (hfq : FiniteUpTo q k) (hdq : DistinctUpTo q k)
    (hperm : (p.take k).Perm (q.take k)) :
    lagrangeSum p k k = lagrangeSum q k k := by
  have hinj : Set.InjOn (xval p) (Finset.range k : Set ℕ) := by
    intro i hi j hj hij
    by_contra hne
    exact hdp i (Finset.mem_range.mp hi) j (Finset.mem_range.mp hj) hne hij
  have hdeg : (Lagrange.interpolate (Finset.range k) (xval p) (yval p)).degree
      < (k : WithBot ℕ) := by
    have := Lagrange.degree_interpolate_lt (yval p) hinj
    simpa using this
  have heval : ∀ i, i < k →
      (Lagrange.interpolate (Finset.range k) (xval p) (yval p)).eval (xval p i) = yval p i :=
    fun i hi => Lagrange.eval_interpolate_at_node (yval p) hinj (Finset.mem_range.mpr hi)
  rw [lagrangeSum_eq_eval_zero p k _ hdeg hdp (fun i hi => (heval i hi).symm)]
  rw [lagrangeSum_eq_eval_zero q k _ hdeg hdq]
  intro i hi
  have hmem : q.getD i (nan, nan) ∈ p.take k :=
    hperm.mem_iff.mpr (getD_mem_take q (nan, nan) hi (length_le_of_finiteUpTo hfq))
  obtain ⟨i1, hi1, hget⟩ := exists_index_of_mem_take p k (nan, nan) _ hmem
  have hx : xval q i = xval p i1 := by unfold xval; rw [hget]
  have hy : yval q i = yval p i1 := by unfold yval; rw [hget]
  rw [hx, hy, heval i1 hi1]

theorem mul_zero_left {a : Number} (b : Number) (h : a.toRat? = some 0 ∨ a.toRat? = none) :
    (mul a b).toRat? = some 0 ∨ (mul a b).toRat? = none := by
  rcases h with h | h
  · unfold mul
    rw [h]
    cases hb : b.toRat? with
    | none =>
      right
      simp only []
      split_ifs <;> rfl
    | some qb =>
      left
      simp only [zero_mul, if_true]
      exact toRat?_zero _
  · exact Or.inr (mul_nonfinite_left b h)

theorem mul_zero_right (a : Number) {b : Number} (h : b.toRat? = some 0 ∨ b.toRat? = none) :
    (mul a b).toRat? = some 0 ∨ (mul a b).toRat? = none := by
  rcases h with h | h
  · unfold mul
    rw [h]
    cases ha : a.toRat? with
    | none =>
      right
      simp only []
      split_ifs <;> rfl
    | some qa =>
      left
      simp only [mul_zero, if_true]
      exact toRat?_zero _
  · exact Or.inr (mul_nonfinite_right a h)

theorem div_zero_num {a : Number} (b : Number) (h : a.toRat? = some 0) :
    (div a b).toRat? = some 0 ∨ (div a b).toRat? = none := by
  unfold div
  rw [h]
  cases hb : b.toRat? with
  | none =>
    simp only []
    split_ifs
    · exact Or.inr rfl
    · exact Or.inl (toRat?_zero _)
  | some qb =>
    simp only [if_true]
    split_ifs
    · exact Or.inr rfl
    · exact Or.inl (toRat?_zero _)

theorem sub_zero_zero {a b : Number} (ha : a.toRat? = some 0) (hb : b.toRat? = some 0) :
    (sub a b).toRat? = some 0 := by
  have := sub_exact ha hb (by rw [sub_self]; exact isDouble_zero)
  rw [sub_self] at this
  exact this

/-- For `j` other than the index `j0` of the abscissa zero, the running product is a zero or
not finite once the loop has met `j0`. -/
theorem foldl_basisStep_zero (points : List Point) (xj : Number) {j j0 : Nat} (hne : j0 ≠ j)
    (hx0 : (points.getD j0 (nan, nan)).1.toRat? = some 0) (m : Nat) (hm : j0 < m) :
    ((List.range m).foldl (basisStep j (fin 0) xj points) (fin 1)).toRat? = some 0 ∨
      ((List.range m).foldl (basisStep j (fin 0) xj points) (fin 1)).toRat? = none := by
  induction m with
  | zero => exact absurd hm (Nat.not_lt_zero j0)
  | succ m ih =>
    rw [List.range_succ, List.foldl_append, List.foldl_cons, List.foldl_nil]
    by_cases hmj0 : m = j0
    · subst hmj0
      unfold basisStep
      rw [if_pos hne]
      exact mul_zero_right _ (div_zero_num _ (sub_zero_zero rfl hx0))
    · have ih1 := ih (by omega)
      unfold basisStep
      split_ifs
      · exact mul_zero_left _ ih1
      · exact ih1

theorem toDouble_one : toDouble 1 = fin 1 := by decide!

theorem basisStep_of_ne (j : Nat) (x xj : Number) (points : List Point) (basis : Number)
    {i : Nat} (h : i ≠ j) :
    basisStep j x xj points basis i
      = mul basis (div (sub x (points.getD i (nan, nan)).1)
          (sub xj (points.getD i (nan, nan)).1)) := by
  unfold basisStep
  rw [if_pos h]

theorem basisStep_self (j : Nat) (x xj : Number) (points : List Point) (basis : Number) :
    basisStep j x xj points basis j = basis := by
  unfold basisStep
  rw [if_neg (by simp)]

theorem sumStep_eq (x : Number) (points : List Point) (result : Number) (j : Nat) :
    sumStep x points result j
      = add result (mul (points.getD j (nan, nan)).2 (lagrangeBasis j x points)) := rfl

theorem div_self_one (d : Number) : div d d = fin 1 ∨ (div d d).toRat? = none := by
  cases d with
  | nan => right; rfl
  | posInf => right; rfl
  | negInf => right; rfl
  | negZero => right; decide
  | fin q =>
    by_cases hq : q = 0
    · right
      subst hq
      decide!
    · left
      unfold div
      simp only [toRat?, hq, if_false, div_self hq]
      exact toDouble_one

/-- A factor of the basis value of the point with abscissa zero is `1`, or not finite. -/
theorem factor_zero_abscissa {x0 xi : Number} {q : ℚ} (hx0 : x0.toRat? = some 0)
    (hxi : xi.toRat? = some q) :
    div (sub (fin 0) xi) (sub x0 xi) = fin 1 ∨
      (div (sub (fin 0) xi) (sub x0 xi)).toRat? = none := by
  by_cases hq : q = 0
  · right
    subst hq
    exact div_nonfinite _ (Or.inl (sub_zero_zero hx0 hxi))
  · have hsame : sub (fin 0) xi = sub x0 xi := by
      have hneg := toRat?_neg hxi
      have h0 : (fin (0 : ℚ)).toRat? = some 0 := rfl
      have hnq : ¬ (True ∧ -q = 0) := fun h => hq (neg_eq_zero.mp h.2)
      unfold sub add
      rw [hneg, h0, hx0]
      simp only []
      rw [if_neg hnq, if_neg hnq]
    rw [hsame]
    exact div_self_one _

theorem mul_one_one : mul (fin 1) (fin 1) = fin 1 := by decide!

/-- The running product for the point `j0` with abscissa zero is `1`, or not finite. -/
theorem foldl_basisStep_one (points : List Point) {k j0 : Nat} (hfin : FiniteUpTo points k)
    (hx0 : (points.getD j0 (nan, nan)).1.toRat? = some 0) (m : Nat) (hm : m ≤ k) :
    (List.range m).foldl (basisStep j0 (fin 0) (points.getD j0 (nan, nan)).1 points) (fin 1)
        = fin 1 ∨
      ((List.range m).foldl
        (basisStep j0 (fin 0) (points.getD j0 (nan, nan)).1 points) (fin 1)).toRat? = none := by
  induction m with
  | zero => left; rfl
  | succ m ih =>
    have hmk : m < k := hm
    rw [List.range_succ, List.foldl_append, List.foldl_cons, List.foldl_nil]
    have ih1 := ih (Nat.le_of_lt hmk)
    by_cases hmj : m = j0
    · rw [hmj, basisStep_self]
      rw [hmj] at ih1
      exact ih1
    · rw [basisStep_of_ne _ _ _ _ _ hmj]
      rcases ih1 with h1 | h1
      · rcases factor_zero_abscissa hx0 (toRat?_x hfin hmk) with h2 | h2
        · left
          rw [h1, h2]
          exact mul_one_one
        · exact Or.inr (mul_nonfinite_right _ h2)
      · exact Or.inr (mul_nonfinite_left _ h1)

theorem isSome_ne_none {a : Number} (h : (a.toRat?).isSome = true) : a.toRat? ≠ none := by
  intro h0
  rw [h0] at h
  cases h

/-- The summation loop when the point `j0` has abscissa zero and integer ordinate `y0`: the
running sum is `0` before the turn `j0` and `y0` after it. -/
theorem foldl_sumStep_zero_abscissa {points : List Point} {k j0 : Nat} {y0 : ℤ}
    (hlen : points.length = k) (hfin : FiniteUpTo points k)
    (hx0 : (points.getD j0 (nan, nan)).1.toRat? = some 0)
    (hy0 : (points.getD j0 (nan, nan)).2.toRat? = some (y0 : ℚ)) (hdbl : IsDouble (y0 : ℚ))
    (hbasis : ∀ j, j < k → ((lagrangeBasis j (fin 0) points).toRat?).isSome = true)
    (m : Nat) (hm : m ≤ k) :
    ((List.range m).foldl (sumStep (fin 0) points) (fin 0)).toRat?
      = some (if j0 < m then (y0 : ℚ) else 0) := by
  induction m with
  | zero => simp [toRat?]
  | succ m ih =>
    have hmk : m < k := hm
    rw [List.range_succ, List.foldl_append, List.foldl_cons, List.foldl_nil]
    have ih1 := ih (Nat.le_of_lt hmk)
    have hb := isSome_ne_none (hbasis m hmk)
    rw [sumStep_eq]
    by_cases hmj : m = j0
    · subst hmj
      have hone : lagrangeBasis m (fin 0) points = fin 1 := by
        have := foldl_basisStep_one points hfin hx0 k (Nat.le_refl k)
        unfold lagrangeBasis at hb ⊢
        rw [hlen] at hb ⊢
        rcases this with h | h
        · exact h
        · exact absurd h hb
      rw [hone]
      have hterm : (mul (points.getD m (nan, nan)).2 (fin 1)).toRat? = some ((y0 : ℚ) * 1) :=
        mul_exact hy0 rfl (by rw [mul_one]; exact hdbl)
      rw [mul_one] at hterm
      rw [if_neg (Nat.lt_irrefl m)] at ih1
      have := add_exact ih1 hterm (by rw [zero_add]; exact hdbl)
      rw [zero_add] at this
      rw [this, if_pos (Nat.lt_succ_self m)]
    · have hzero : (lagrangeBasis m (fin 0) points).toRat? = some 0 := by
        by_cases hlt : j0 < k
        · have := foldl_basisStep_zero points (points.getD m (nan, nan)).1
            (Ne.symm hmj) hx0 k hlt
          unfold lagrangeBasis at hb ⊢
          rw [hlen] at hb ⊢
          rcases this with h | h
          · exact h
          · exact absurd h hb
        · exfalso
          have hge : points.length ≤ j0 := by omega
          rw [List.getD_eq_getElem?_getD, List.getElem?_eq_none hge] at hx0
          cases hx0
      have hterm := mul_exact (toRat?_y hfin hmk) hzero
        (by rw [mul_zero]; exact isDouble_zero)
      rw [mul_zero] at hterm
      have hsum : IsDouble ((if j0 < m then (y0 : ℚ) else 0) + 0) := by
        rw [add_zero]
        split_ifs
        · exact hdbl
        · exact isDouble_zero
      have := add_exact ih1 hterm hsum
      rw [add_zero] at this
      rw [this]
      have hiff : (j0 < m + 1) ↔ (j0 < m) := by omega
      simp only [hiff]

/-- C16, as stated, fails on the code: with the points `(0, 5)` and `(1, NaN)`, which the case
with the shares `5` and `zz` in base ten decodes to, and `k = 2`, the result is `NaN`, not
`5`. -/
theorem c16_counterexample :
    readPointsFromJson ⟨2, 2, [⟨"0", "10", "5"⟩, ⟨"1", "10", "zz"⟩]⟩
        = ([(fin 0, fin 5), (fin 1, nan)], 2, 2) ∧
      findSecretLagrange [(fin 0, fin 5), (fin 1, nan)] 2 = nan ∧
      processTestCase ⟨2, 2, [⟨"0", "10", "5"⟩, ⟨"1", "10", "zz"⟩]⟩ = Except.ok nan := by
  decide!

/-- C16, amended: a share stored at `x = 0` is not rejected: for every `k` and point list whose
first `k` points are finite with pairwise distinct abscissas, one of them being `(0, y0)` with
an integer `y0`, and for which no basis value overflows (each `L_j(0)` computed is finite),
`findSecretLagrange` returns `y0`, whatever the finite ordinates of the other selected
points. -/
theorem c16_zero_abscissa (points : List Point) (k j0 : Nat) (y0 : ℤ) (hj0 : j0 < k)
    (hfin : FiniteUpTo points k) (_hdist : DistinctUpTo points k)
    (hx0 : (points.getD j0 (nan, nan)).1.toRat? = some 0)
    (hy0 : (points.getD j0 (nan, nan)).2.toRat? = some (y0 : ℚ)) (hdbl : IsDouble (y0 : ℚ))
    (hbasis : BasisFiniteUpTo points k) :
    (findSecretLagrange points (k : Int)).toRat? = some (y0 : ℚ) := by
  have hlen : (points.take k).length = k :=
    List.length_take_of_le (length_le_of_finiteUpTo hfin)
  have hsum := foldl_sumStep_zero_abscissa hlen (finiteUpTo_take hfin)
    (by rw [getD_take points hj0]; exact hx0) (by rw [getD_take points hj0]; exact hy0)
    hdbl hbasis k (Nat.le_refl k)
  rw [if_pos hj0] at hsum
  unfold findSecretLagrange
  rw [slice0_natCast]
  show (mathRound ((List.range (points.take k).length).foldl
    (sumStep (fin 0) (points.take k)) (fin 0))).toRat? = some (y0 : ℚ)
  rw [hlen, mathRound_toRat? hsum]
  congr 2
  rw [Int.floor_eq_iff]
  constructor <;> linarith

/-- Witness for C16: the points `(1, 3), (0, 6), (4, 11)` with `k = 3` give `6`. -/
theorem c16_zero_abscissa_witness :
    (findSecretLagrange [(fin 1, fin 3), (fin 0, fin 6), (fin 4, fin 11)]
        ((3 : Nat) : Int)).toRat? = some ((6 : ℤ) : ℚ) :=
  c16_zero_abscissa [(fin 1, fin 3), (fin 0, fin 6), (fin 4, fin 11)] 3 1 6 (by decide)
    (by decide!) (by decide!) (by decide!) (by decide!) (by decide!) (by decide!)

end Interpretation
